import Mathlib

/-!
Verification of the e-commerce product crawler (Next.js route `app/api/crawl/route.ts`,
class `EcommerceCrawler`).  The crawler is embedded shallowly:

* the URL classifiers `isProductUrl` / `isNavigationUrl` implement the regex lists
  `PRODUCT_PATTERNS` / `NAVIGATION_PATTERNS` as decidable string predicates;
* the platform WHATWG `URL` constructor used by `isValidUrl` and `extractUrls` is
  modelled (it is not part of this repository) for absolute `scheme://host/path`
  URLs and path-absolute references, other reference forms being treated as
  unparseable and silently skipped, exactly as the `catch` branches do;
* the network is an oracle `String → FetchResult`; `fetchPage` collapses timeouts,
  transport errors and non-2xx statuses to `none` as the source does;
* the cooperative concurrency of `crawl()` is a small-step relation `Step`:
  the synchronous launch burst of the inner `while` is one step (it runs without
  suspension points), and the completion of one in-flight `crawlUrl` task
  (its continuation after `await fetchPage` together with the `.then` enqueue,
  which run without interleaved mutations of `visited`) is one step.  The choice
  of which in-flight fetch finishes first is the scheduling nondeterminism.
-/

attribute [local semireducible] Rat.mul Rat.add Rat.sub Rat.inv Rat.ofScientific

namespace Crawl

/-! ### URL classifier (source lines 19–52, 86–92) -/

/-- Case-insensitive substring product patterns of `PRODUCT_PATTERNS`
(`/product/`, `/item/`, `/p/`, `/products/`, `/dp/`, `/goods/`, `/detail/`, `/buy/`). -/
def prodSubstrings : List String :=
  ["/product/", "/item/", "/p/", "/products/", "/dp/", "/goods/", "/detail/", "/buy/"]

/-- The substrings of `NAVIGATION_PATTERNS`; all of them are plain case-insensitive
substring tests. -/
def navSubstrings : List String :=
  ["/category/", "/categories/", "/collection/", "/collections/", "/brand/",
   "/brands/", "/shop/", "/store/", "/catalog/", "/browse/", "/men/", "/women/",
   "/kids/", "/sale/", "/new/", "/trending/"]

/-- Does `pat` occur as a contiguous substring of `l`?  (`RegExp.test` for a
literal pattern.) -/
def containsSub (l pat : List Char) : Bool :=
  pat.isPrefixOf l ||
    match l with
    | [] => false
    | _ :: t => containsSub t pat

/-- `[a-zA-Z0-9-]`, the character class of the three-slug pattern. -/
def isSlugChar (c : Char) : Bool :=
  c.isAlpha || c.isDigit || c = '-'

/-- Scan a reversed string for `n` segments: each a non-empty maximal run of
characters satisfying `p` followed by `'/'` (reading the original string from its
end).  Since `p` never holds of `'/'` for the classes used, a regex match of
`(\/seg)+` anchored at `$` forces exactly these maximal runs. -/
def revSegs (p : Char → Bool) : Nat → List Char → Bool
  | 0, _ => true
  | n + 1, l =>
    let run := l.takeWhile p
    match l.dropWhile p with
    | '/' :: rest => !run.isEmpty && revSegs p n rest
    | _ => false

/-- On a reversed lowercased string, strip a trailing `.html` or `.htm`
(the `(html|htm)` / `html?` alternates of patterns 10 and 11). -/
def stripExtRev (l : List Char) : Option (List Char) :=
  if ("lmth.".toList).isPrefixOf l then some (l.drop 5)
  else if ("mth.".toList).isPrefixOf l then some (l.drop 4)
  else none

/-- After an occurrence of `/shop/`: does `\/\d+` occur before any newline?
(`.*` of pattern 9 cannot cross a newline.) -/
def shopNumScan : List Char → Bool
  | [] => false
  | c :: rest =>
    if c = '\n' then false
    else
      (match c, rest with
       | '/', d :: _ => d.isDigit
       | _, _ => false) || shopNumScan rest

/-- Pattern 9, `/\/shop\/.*\/\d+/i`: some case-insensitive occurrence of `/shop/`
followed (with no intervening newline) by `/` and a digit.  Takes the lowercased
character list. -/
def shopPat : List Char → Bool
  | [] => false
  | l@(_ :: rest) =>
    (("/shop/".toList).isPrefixOf l && shopNumScan (l.drop 6)) || shopPat rest

/-- `EcommerceCrawler.isProductUrl` (line 86): `PRODUCT_PATTERNS.some (p => p.test url)`. -/
def isProductUrl (url : String) : Bool :=
  let low := url.toList.map Char.toLower
  let rev := low.reverse
  prodSubstrings.any (fun p => containsSub low p.toList)
  || shopPat low
  || (match stripExtRev rev with
      | some r => revSegs (fun c => c ≠ '/') 3 r
      | none => false)
  || (match stripExtRev rev with
      | some r => revSegs Char.isDigit 1 r
      | none => false)
  || revSegs isSlugChar 3 rev

/-- `EcommerceCrawler.isNavigationUrl` (line 90). -/
def isNavigationUrl (url : String) : Bool :=
  let low := url.toList.map Char.toLower
  navSubstrings.any (fun p => containsSub low p.toList)

/-! ### URL parsing (model of the platform `new URL(...)` builtin)

Modelled from the spec (§4.2): the WHATWG URL parser used by `isValidUrl` and
`extractUrls` is platform code, not part of this repository.  It is modelled for
absolute `scheme://host[/path]` URLs and path-absolute references; scheme-opaque
references (`mailto:` …) are kept verbatim (their hostname is `none`, so the
same-host filter drops them exactly as in the source), and other corner forms are
treated as unparseable, which the source's `catch` branches turn into silent
skips. -/

/-- Split at the first `"://"`, returning the text before and after it. -/
def findSep : List Char → Option (List Char × List Char)
  | [] => none
  | ':' :: '/' :: '/' :: rest => some ([], rest)
  | c :: rest => (findSep rest).map (fun p => (c :: p.1, p.2))

/-- A valid URL scheme: a letter followed by letters, digits, `+`, `.` or `-`. -/
def validScheme : List Char → Bool
  | [] => false
  | c :: rest =>
    c.isAlpha && rest.all (fun d => d.isAlpha || d.isDigit || d = '+' || d = '.' || d = '-')

/-- Split at the first `':'` occurring before any `/`, `?` or `#`. -/
def takeScheme : List Char → Option (List Char × List Char)
  | [] => none
  | ':' :: rest => some ([], rest)
  | '/' :: _ => none
  | '?' :: _ => none
  | '#' :: _ => none
  | c :: rest => (takeScheme rest).map (fun p => (c :: p.1, p.2))

/-- Parse an absolute `scheme://host[...]` URL into its lowercased scheme,
lowercased host, and path-and-after (defaulting to `"/"`), as the `URL`
constructor normalizes `href`. -/
def parseAbsParts (s : String) : Option (String × String × String) :=
  match findSep s.toList with
  | none => none
  | some (sch, rest) =>
    if validScheme sch then
      let host := rest.takeWhile (fun c => !(c = '/' || c = '?' || c = '#' || c = ':'))
      let after := rest.drop host.length
      if host.isEmpty then none
      else
        some (String.mk (sch.map Char.toLower), String.mk (host.map Char.toLower),
              if after.isEmpty then "/" else String.mk after)
    else none

/-- The normalized `href` of an absolute URL. -/
def parseAbs (s : String) : Option String :=
  (parseAbsParts s).map (fun t => t.1 ++ "://" ++ t.2.1 ++ t.2.2)

/-- `new URL(url).hostname`, lowercased by the parser; `none` when the
constructor would throw or the URL is scheme-opaque (hostname `""`). -/
def hostnameOf (s : String) : Option String :=
  (parseAbsParts s).map (fun t => t.2.1)

/-- Path directory: everything up to and including the last `'/'`. -/
def dirOf (path : String) : String :=
  String.mk ((path.toList.reverse.dropWhile (fun c => c ≠ '/')).reverse)

/-- Resolve a reference without a scheme against a base URL. -/
def resolveRel (ref base : String) : Option String :=
  match parseAbsParts base with
  | none => none
  | some (sch, host, path) =>
    if ['/', '/'].isPrefixOf ref.toList then parseAbs (sch ++ ":" ++ ref)
    else if ['/'].isPrefixOf ref.toList then some (sch ++ "://" ++ host ++ ref)
    else if ref.toList.isEmpty then some (sch ++ "://" ++ host ++ path)
    else some (sch ++ "://" ++ host ++ dirOf path ++ ref)

/-- `new URL(ref, base).href` (model): absolute references resolve on their own,
scheme-opaque ones are kept verbatim, the rest resolve against the base. -/
def resolveUrl (ref base : String) : Option String :=
  match takeScheme ref.toList with
  | some (sch, rest) =>
    if validScheme sch then
      if ['/', '/'].isPrefixOf rest then parseAbs ref else some ref
    else resolveRel ref base
  | none => resolveRel ref base

/-! ### Crawler configuration and pure helpers (source lines 54–111) -/

/-- The per-run configuration of one `EcommerceCrawler` instance
(constructor, lines 63–75). -/
structure CrawlConfig where
  domain : String
  maxDepth : Nat
  maxPages : Nat
  concurrency : Nat
deriving DecidableEq, Repr

/-- `EcommerceCrawler.isValidUrl` (lines 77–84): the resolved hostname equals the
seed domain's hostname; any parse failure yields `false`. -/
def isValidUrl (cfg : CrawlConfig) (url : String) : Bool :=
  match hostnameOf url, hostnameOf cfg.domain with
  | some a, some b => a = b
  | _, _ => false

/-- `[...new Set(urls)]`: deduplicate keeping first occurrences. -/
def dedup : List String → List String
  | [] => []
  | u :: rest => u :: (dedup rest).filter (fun v => v ≠ u)

/-- `EcommerceCrawler.extractUrls` (lines 94–111).  The anchor-scanning regex is
abstracted: a fetched page is represented by the list of `href` attribute values
it yields, in document order; resolution against the base URL, the same-host
filter and the final deduplication follow the source. -/
def extractUrls (cfg : CrawlConfig) (hrefs : List String) (baseUrl : String) : List String :=
  dedup (hrefs.filterMap (fun raw =>
    match resolveUrl raw baseUrl with
    | some u => if isValidUrl cfg u then some u else none
    | none => none))

/-- What the network returns for one `fetch`: a timeout, a transport error, or a
response with an HTTP status and a body (the body abstracted to its href list). -/
inductive FetchResult where
  | timeout
  | transportError
  | response (status : Nat) (hrefs : List String)
deriving DecidableEq, Repr

/-- A network oracle: the outcome of fetching each URL. -/
def FetchOracle := String → FetchResult

/-- `EcommerceCrawler.fetchPage` (lines 113–133): a thrown timeout or transport
error is caught and becomes `null`, a non-`ok` status (`response.ok` is
200–299) becomes `null`; only a 2xx response yields the body. -/
def fetchPage : FetchResult → Option (List String)
  | FetchResult.response status hrefs =>
    if 200 ≤ status ∧ status ≤ 299 then some hrefs else none
  | _ => none

/-! ### Updates (source lines 10–16, 142–156, 171, 203–216, 226–239) -/

/-- The `status` field of `CrawlUpdate`. -/
inductive Status where
  | pending
  | crawling
  | completed
  | error
deriving DecidableEq, Repr

/-- `Partial<CrawlUpdate>` as passed to `onUpdate`: any subset of the fields
(the `domain` tag is added by the orchestrator's wrapper). -/
structure UpdatePatch where
  status : Option Status := none
  progress : Option ℚ := none
  productUrls : Option (List String) := none
  errMsg : Option String := none
deriving DecidableEq, Repr

/-- The full `CrawlUpdate` record serialized onto the stream (lines 10–16). -/
structure CrawlUpdate where
  domain : String
  productUrls : List String
  status : Status
  progress : ℚ
  errMsg : Option String
deriving DecidableEq, Repr

/-- The `onUpdate` wrapper built in `POST` (lines 227–236): spread the patch over
the fixed defaults `{domain, productUrls: [], status: "pending", progress: 0}`. -/
def mkFullUpdate (domain : String) (u : UpdatePatch) : CrawlUpdate :=
  { domain := domain
    productUrls := u.productUrls.getD []
    status := u.status.getD Status.pending
    progress := u.progress.getD 0
    errMsg := u.errMsg }

/-- Progress after a claim (line 143): `Math.min(size / maxPages * 100, 100)`.
(`maxPages = 0` never reaches this computation: the launch guard blocks every
claim first.) -/
def progressOf (cfg : CrawlConfig) (size : Nat) : ℚ :=
  min ((size : ℚ) / (cfg.maxPages : ℚ) * 100) 100

/-- The update of line 144: `{ progress }`. -/
def progressUpdate (p : ℚ) : UpdatePatch :=
  { progress := some p }

/-- The update of lines 152–155: `{ productUrls, progress }` — the progress is
the one captured at claim time. -/
def productFoundUpdate (products : List String) (p : ℚ) : UpdatePatch :=
  { productUrls := some products, progress := some p }

/-- The update of line 171: `{ status: "crawling", progress: 0 }`. -/
def crawlingUpdate : UpdatePatch :=
  { status := some Status.crawling, progress := some 0 }

/-- The update of lines 203–207: `{ status: "completed", progress: 100, productUrls }`. -/
def completedUpdate (products : List String) : UpdatePatch :=
  { status := some Status.completed, progress := some 100, productUrls := some products }

/-! ### Scheduler state and small-step semantics (source lines 135–217) -/

/-- One entry of `activePromises`: either a task whose claim succeeded and whose
fetch is in flight (carrying the progress captured at claim time, line 143), or
a task whose admission guard failed and which resolves with `[]`. -/
inductive Task where
  | claimed (url : String) (depth : Nat) (prog : ℚ)
  | aborted
deriving DecidableEq, Repr

/-- The scheduler state of one domain run: the fields of `EcommerceCrawler`
plus the local `queue` and `activePromises` of `crawl()`, the emitted update
trace, a ghost log of (url, depth) pairs actually passed to `fetchPage`, and
whether `crawl()` has returned. -/
structure CrawlState where
  visited : List String
  products : List String
  queue : List (String × Nat)
  active : List Task
  updates : List UpdatePatch
  fetched : List (String × Nat)
  done : Bool
deriving DecidableEq, Repr

/-- State at the top of the loop (lines 171–174): `crawling` emitted, queue
seeded with `{url: domain, depth: 0}`. -/
def init (cfg : CrawlConfig) : CrawlState :=
  { visited := []
    products := []
    queue := [(cfg.domain, 0)]
    active := []
    updates := [crawlingUpdate]
    fetched := []
    done := false }

/-- The synchronous prefix of `crawlUrl` (lines 136–144): the admission guard,
and on success the insertion into `visited`, the progress update, and the start
of the fetch.  This runs with no suspension point, hence inside one step. -/
def phaseA (cfg : CrawlConfig) (st : CrawlState) (url : String) (depth : Nat)
    (rest : List (String × Nat)) : CrawlState :=
  if cfg.maxDepth < depth ∨ url ∈ st.visited ∨ cfg.maxPages ≤ st.visited.length then
    { st with queue := rest, active := st.active ++ [Task.aborted] }
  else
    let visited2 := st.visited ++ [url]
    let prog := progressOf cfg visited2.length
    { st with
      queue := rest
      visited := visited2
      active := st.active ++ [Task.claimed url depth prog]
      updates := st.updates ++ [progressUpdate prog]
      fetched := st.fetched ++ [(url, depth)] }

/-- One test-and-launch of the inner `while` (line 178): pop the head target if
there is one, capacity remains, and the page cap is not reached. -/
def launchOne (cfg : CrawlConfig) (st : CrawlState) : Option CrawlState :=
  match st.queue with
  | [] => none
  | (url, depth) :: rest =>
    if st.active.length < cfg.concurrency ∧ st.visited.length < cfg.maxPages then
      some (phaseA cfg st url depth rest)
    else none

/-- Run the inner `while` to exhaustion; each launch pops one target, so the
initial queue length bounds the iterations. -/
def burstAux (cfg : CrawlConfig) : Nat → CrawlState → CrawlState
  | 0, st => st
  | n + 1, st =>
    match launchOne cfg st with
    | none => st
    | some st2 => burstAux cfg n st2

/-- The whole synchronous launch burst (lines 178–195). -/
def burst (cfg : CrawlConfig) (st : CrawlState) : CrawlState :=
  burstAux cfg st.queue.length st

/-- The continuation of `crawlUrl` after `await fetchPage` (lines 146–166)
together with the `.then` enqueue (lines 182–189), for the `i`-th active task:
on a failed fetch nothing happens; on success the product check and update, the
extraction and filtering of links, and the enqueue of unvisited survivors. -/
def completeTask (cfg : CrawlConfig) (oracle : FetchOracle) (st : CrawlState)
    (i : Nat) : CrawlState :=
  match st.active[i]? with
  | none => st
  | some Task.aborted => { st with active := st.active.eraseIdx i }
  | some (Task.claimed url depth prog) =>
    match fetchPage (oracle url) with
    | none => { st with active := st.active.eraseIdx i }
    | some hrefs =>
      let products2 :=
        if isProductUrl url then
          if url ∈ st.products then st.products else st.products ++ [url]
        else st.products
      let updates2 :=
        if isProductUrl url then
          st.updates ++ [productFoundUpdate products2 prog]
        else st.updates
      let extracted := extractUrls cfg hrefs url
      let urlsToVisit := extracted.filter (fun u =>
        u ∉ st.visited && (isProductUrl u || isNavigationUrl u || depth == 0))
      let pushed := (urlsToVisit.filter (fun u => u ∉ st.visited)).map
        (fun u => (u, depth + 1))
      { st with
        active := st.active.eraseIdx i
        products := products2
        updates := updates2
        queue := st.queue ++ pushed }

/-- Exit of the outer `while` (lines 203–209): emit `completed` and return. -/
def finishState (st : CrawlState) : CrawlState :=
  { st with updates := st.updates ++ [completedUpdate st.products], done := true }

/-- One scheduling step of `crawl()`: a synchronous launch burst, the completion
of the `i`-th in-flight task, or — when both the queue and the task set are
empty — the terminal `completed` emission.  Which in-flight fetch finishes first
is the nondeterminism of the network. -/
inductive Step (cfg : CrawlConfig) (oracle : FetchOracle) : CrawlState → CrawlState → Prop where
  | burst (st : CrawlState) (h : st.done = false) :
      Step cfg oracle st (burst cfg st)
  | complete (st : CrawlState) (i : Nat) (h : st.done = false)
      (hi : i < st.active.length) :
      Step cfg oracle st (completeTask cfg oracle st i)
  | finish (st : CrawlState) (h : st.done = false) (hq : st.queue = [])
      (ha : st.active = []) :
      Step cfg oracle st (finishState st)

/-- Reachability along scheduler steps. -/
def Reaches (cfg : CrawlConfig) (oracle : FetchOracle) : CrawlState → CrawlState → Prop :=
  Relation.ReflTransGen (Step cfg oracle)

/-! ### Executable schedules -/

/-- A concrete scheduling decision. -/
inductive Choice where
  | burst
  | complete (i : Nat)
  | finish
deriving DecidableEq, Repr

/-- Apply one scheduling decision, checking its side conditions. -/
def applyChoice (cfg : CrawlConfig) (oracle : FetchOracle) (st : CrawlState) :
    Choice → Option CrawlState
  | Choice.burst => if st.done = false then some (burst cfg st) else none
  | Choice.complete i =>
    if st.done = false ∧ i < st.active.length then some (completeTask cfg oracle st i)
    else none
  | Choice.finish =>
    if st.done = false ∧ st.queue = [] ∧ st.active = [] then some (finishState st)
    else none

/-- Run a concrete schedule. -/
def runChoices (cfg : CrawlConfig) (oracle : FetchOracle) :
    List Choice → CrawlState → Option CrawlState
  | [], st => some st
  | c :: cs, st => (applyChoice cfg oracle st c).bind (runChoices cfg oracle cs)

/-- All distinct successors of a state: used to explore every schedule of a
concrete scenario. -/
def succsOf (cfg : CrawlConfig) (oracle : FetchOracle) (st : CrawlState) :
    List CrawlState :=
  if st.done then []
  else
    (if st.queue = [] ∧ st.active = [] then [finishState st] else [])
    ++ (if burst cfg st ≠ st then [burst cfg st] else [])
    ++ (List.range st.active.length).map (fun i => completeTask cfg oracle st i)

/-- Bounded exhaustive check: every maximal run from `st` (up to `fuel` proper
steps) ends `done` in a state satisfying `P`. -/
def checkAll (cfg : CrawlConfig) (oracle : FetchOracle) (P : CrawlState → Bool) :
    Nat → CrawlState → Bool
  | 0, _ => false
  | n + 1, st =>
    if st.done then P st
    else (succsOf cfg oracle st).all (fun st2 => checkAll cfg oracle P n st2)

/-! ### Soundness of concrete schedules and of the exhaustive explorer -/

theorem applyChoice_sound {cfg : CrawlConfig} {oracle : FetchOracle} {st st' : CrawlState}
    {c : Choice} (h : applyChoice cfg oracle st c = some st') : Step cfg oracle st st' := by
  cases c with
  | burst =>
    simp only [applyChoice] at h
    split at h
    · cases h; exact Step.burst st (by assumption)
    · cases h
  | complete i =>
    simp only [applyChoice] at h
    split at h
    · cases h; exact Step.complete st i (by tauto) (by tauto)
    · cases h
  | finish =>
    simp only [applyChoice] at h
    split at h
    · cases h; exact Step.finish st (by tauto) (by tauto) (by tauto)
    · cases h

theorem runChoices_sound {cfg : CrawlConfig} {oracle : FetchOracle} :
    ∀ {cs : List Choice} {st st' : CrawlState},
      runChoices cfg oracle cs st = some st' → Reaches cfg oracle st st'
  | [], st, st', h => by
    cases h; exact Relation.ReflTransGen.refl
  | c :: cs, st, st', h => by
    unfold runChoices at h
    cases ha : applyChoice cfg oracle st c with
    | none => rw [ha] at h; cases h
    | some st2 =>
      rw [ha] at h
      exact Relation.ReflTransGen.head (applyChoice_sound ha) (runChoices_sound h)

theorem Step.done_false {cfg : CrawlConfig} {oracle : FetchOracle} {st st' : CrawlState}
    (h : Step cfg oracle st st') : st.done = false := by
  cases h <;> assumption

theorem step_mem_succs {cfg : CrawlConfig} {oracle : FetchOracle} {st st' : CrawlState}
    (h : Step cfg oracle st st') : st' = st ∨ st' ∈ succsOf cfg oracle st := by
  cases h with
  | burst hd =>
    by_cases hb : burst cfg st = st
    · exact Or.inl hb
    · refine Or.inr ?_
      simp [succsOf, hd, hb]
  | complete i hd hi =>
    refine Or.inr ?_
    simp only [succsOf, hd, Bool.false_eq_true, if_false, List.mem_append, List.mem_map]
    exact Or.inr ⟨i, List.mem_range.2 hi, rfl⟩
  | finish hd hq ha =>
    refine Or.inr ?_
    simp [succsOf, hd, hq, ha]

theorem checkAll_sound {cfg : CrawlConfig} {oracle : FetchOracle} {P : CrawlState → Bool}
    {st st' : CrawlState} (hr : Reaches cfg oracle st st') (hdone : st'.done = true)
    {n : Nat} (hc : checkAll cfg oracle P n st = true) : P st' = true := by
  induction hr using Relation.ReflTransGen.head_induction_on generalizing n with
  | refl =>
    cases n with
    | zero => simp [checkAll] at hc
    | succ m =>
      unfold checkAll at hc
      rwa [if_pos hdone] at hc
  | @head a c hstep hrest ih =>
    cases n with
    | zero => simp [checkAll] at hc
    | succ m =>
      have hall : (succsOf cfg oracle a).all
          (fun st2 => checkAll cfg oracle P m st2) = true := by
        unfold checkAll at hc
        rwa [if_neg (by simp [hstep.done_false])] at hc
      rcases step_mem_succs hstep with heq | hmem
      · subst heq
        exact ih hc
      · exact ih (List.all_eq_true.1 hall _ hmem)

/-! ### The frontier invariant -/

/-- Invariant of every reachable scheduler state: the page cap holds, `visited`
is exactly the list of URLs passed to `fetchPage` (in claim order, without
duplicates), every fetch was dispatched at an admissible depth, queued targets
never exceed `maxDepth + 1`, in-flight claimed tasks sit at admissible depth,
and the updates that do not carry `productUrls` carry exactly the progress
values `0, progressOf 1, …, progressOf |visited|` in order. -/
structure Inv (cfg : CrawlConfig) (st : CrawlState) : Prop where
  vLen : st.visited.length ≤ cfg.maxPages
  fVisited : st.fetched.map Prod.fst = st.visited
  vNodup : st.visited.Nodup
  fDepth : ∀ p ∈ st.fetched, p.2 ≤ cfg.maxDepth
  qDepth : ∀ t ∈ st.queue, t.2 ≤ cfg.maxDepth + 1
  aDepth : ∀ u d pr, Task.claimed u d pr ∈ st.active → d ≤ cfg.maxDepth
  updChar : (st.updates.filter (fun u => u.productUrls.isNone)).filterMap UpdatePatch.progress
      = 0 :: (List.range st.visited.length).map (fun i => progressOf cfg (i + 1))

theorem inv_init (cfg : CrawlConfig) : Inv cfg (init cfg) := by
  refine ⟨by simp [init], by simp [init], by simp [init], by simp [init], ?_, ?_, ?_⟩
  · intro t ht
    simp only [init, List.mem_singleton] at ht
    subst ht
    exact Nat.zero_le _
  · intro u d pr hm
    simp [init] at hm
  · rfl

theorem inv_phaseA {cfg : CrawlConfig} {st : CrawlState} {url : String} {depth : Nat}
    {rest : List (String × Nat)} (h : Inv cfg st) (hq : st.queue = (url, depth) :: rest) :
    Inv cfg (phaseA cfg st url depth rest) := by
  unfold phaseA
  split
  · -- guard failed: the popped target is discarded as an aborted task
    refine ⟨h.vLen, h.fVisited, h.vNodup, h.fDepth, ?_, ?_, h.updChar⟩
    · intro t ht
      exact h.qDepth t (hq ▸ List.mem_cons_of_mem _ ht)
    · intro u d pr hm
      rcases List.mem_append.1 hm with hm | hm
      · exact h.aDepth u d pr hm
      · simp at hm
  · -- claim succeeded
    rename_i hguard
    push_neg at hguard
    obtain ⟨hdep, hnew, hcap⟩ := hguard
    refine ⟨?_, ?_, ?_, ?_, ?_, ?_, ?_⟩
    · simpa using hcap
    · simp [List.map_append, h.fVisited]
    · refine List.nodup_append.2 ⟨h.vNodup, List.nodup_singleton url, ?_⟩
      intro a ha hmem
      rw [List.mem_singleton] at hmem
      subst hmem
      exact hnew ha
    · intro p hp
      rcases List.mem_append.1 hp with hp | hp
      · exact h.fDepth p hp
      · rw [List.mem_singleton] at hp
        subst hp
        exact hdep
    · intro t ht
      exact h.qDepth t (hq ▸ List.mem_cons_of_mem _ ht)
    · intro u d pr hm
      rcases List.mem_append.1 hm with hm | hm
      · exact h.aDepth u d pr hm
      · rw [List.mem_singleton] at hm
        cases hm
        exact hdep
    · simp only [List.filter_append, List.filterMap_append, h.updChar,
        List.length_append, List.length_singleton, List.range_succ, List.map_append]
      rfl

theorem inv_launchOne {cfg : CrawlConfig} {st st' : CrawlState}
    (h : Inv cfg st) (hl : launchOne cfg st = some st') : Inv cfg st' := by
  unfold launchOne at hl
  split at hl
  · cases hl
  · rename_i url depth rest hq
    split at hl
    · cases hl
      exact inv_phaseA h hq
    · cases hl

theorem inv_burstAux {cfg : CrawlConfig} :
    ∀ (n : Nat) (st : CrawlState), Inv cfg st → Inv cfg (burstAux cfg n st)
  | 0, _, h => h
  | n + 1, st, h => by
    unfold burstAux
    cases hl : launchOne cfg st with
    | none => exact h
    | some st2 => exact inv_burstAux n st2 (inv_launchOne h hl)

theorem inv_completeTask {cfg : CrawlConfig} {oracle : FetchOracle} {st : CrawlState}
    {i : Nat} (h : Inv cfg st) : Inv cfg (completeTask cfg oracle st i) := by
  unfold completeTask
  split
  · exact h
  · exact ⟨h.vLen, h.fVisited, h.vNodup, h.fDepth, h.qDepth,
      fun u d pr hm => h.aDepth u d pr (List.eraseIdx_subset _ _ hm), h.updChar⟩
  · rename_i url depth prog hA
    have hdep : depth ≤ cfg.maxDepth :=
      h.aDepth url depth prog (List.getElem?_mem hA)
    split
    · exact ⟨h.vLen, h.fVisited, h.vNodup, h.fDepth, h.qDepth,
        fun u d pr hm => h.aDepth u d pr (List.eraseIdx_subset _ _ hm), h.updChar⟩
    · rename_i hrefs hf
      refine ⟨h.vLen, h.fVisited, h.vNodup, h.fDepth, ?_, ?_, ?_⟩
      · intro t ht
        rcases List.mem_append.1 ht with ht | ht
        · exact h.qDepth t ht
        · rcases List.mem_map.1 ht with ⟨u, _, rfl⟩
          exact Nat.succ_le_succ hdep
      · intro u d pr hm
        exact h.aDepth u d pr (List.eraseIdx_subset _ _ hm)
      · by_cases hp : isProductUrl url = true
        · simp only [hp, if_true, List.filter_append, List.filterMap_append, h.updChar]
          simp [productFoundUpdate]
        · simp only [hp, if_false]
          exact h.updChar

theorem inv_step {cfg : CrawlConfig} {oracle : FetchOracle} {st st' : CrawlState}
    (h : Inv cfg st) (hs : Step cfg oracle st st') : Inv cfg st' := by
  cases hs with
  | burst hd => exact inv_burstAux _ _ h
  | complete i hd hi => exact inv_completeTask h
  | finish hd hq ha =>
    refine ⟨h.vLen, h.fVisited, h.vNodup, h.fDepth, h.qDepth, h.aDepth, ?_⟩
    simp only [finishState, List.filter_append, List.filterMap_append, h.updChar]
    simp [completedUpdate]

theorem inv_reaches {cfg : CrawlConfig} {oracle : FetchOracle} {st : CrawlState}
    (h : Reaches cfg oracle (init cfg) st) : Inv cfg st := by
  induction h with
  | refl => exact inv_init cfg
  | tail _ hbc ih => exact inv_step ih hbc

/-! ### Monotonicity of the derived progress value -/

theorem progressOf_nonneg (cfg : CrawlConfig) (k : Nat) : 0 ≤ progressOf cfg k := by
  unfold progressOf
  refine le_min (by positivity) (by norm_num)

theorem progressOf_le_100 (cfg : CrawlConfig) (k : Nat) : progressOf cfg k ≤ 100 :=
  min_le_right _ _

theorem progressOf_mono (cfg : CrawlConfig) {a b : Nat} (hab : a ≤ b) :
    progressOf cfg a ≤ progressOf cfg b := by
  unfold progressOf
  refine min_le_min ?_ le_rfl
  refine mul_le_mul_of_nonneg_right ?_ (by norm_num)
  exact div_le_div_of_nonneg_right (by exact_mod_cast hab) (Nat.cast_nonneg _)

theorem pairwise_progress (cfg : CrawlConfig) (n : Nat) :
    ((0 : ℚ) :: (List.range n).map (fun i => progressOf cfg (i + 1))).Pairwise (· ≤ ·) := by
  refine List.pairwise_cons.2 ⟨?_, ?_⟩
  · intro q hq
    rcases List.mem_map.1 hq with ⟨i, _, rfl⟩
    exact progressOf_nonneg cfg (i + 1)
  · refine List.pairwise_map.2 ?_
    exact (List.pairwise_lt_range n).imp
      (fun hlt => progressOf_mono cfg (Nat.succ_le_succ (Nat.le_of_lt hlt)))

/-! ### Enqueue discipline -/

theorem launchOne_queue_subset {cfg : CrawlConfig} {st st' : CrawlState}
    (hl : launchOne cfg st = some st') : st'.queue ⊆ st.queue := by
  unfold launchOne at hl
  split at hl
  · cases hl
  · rename_i url depth rest hq
    split at hl
    · cases hl
      unfold phaseA
      split
      · intro x hx
        rw [hq]
        exact List.mem_cons_of_mem _ hx
      · intro x hx
        rw [hq]
        exact List.mem_cons_of_mem _ hx
    · cases hl

theorem burstAux_queue_subset (cfg : CrawlConfig) :
    ∀ (n : Nat) (st : CrawlState), (burstAux cfg n st).queue ⊆ st.queue
  | 0, _ => fun _ hx => hx
  | n + 1, st => by
    unfold burstAux
    split
    · exact fun _ hx => hx
    · rename_i st2 hl
      exact fun x hx =>
        launchOne_queue_subset hl (burstAux_queue_subset cfg n st2 hx)

/-- Whatever appears in the queue after a step either was already queued or is
not visited: a URL in `visited` is never (re-)enqueued — the `.then` callback
(lines 184–188) checks `!visitedUrls.has(newUrl)`, as does the expansion filter
(line 162).  (Nothing, however, prevents the same unvisited URL from being
enqueued twice by two concurrently completing parents.) -/
theorem step_new_queue_unvisited {cfg : CrawlConfig} {oracle : FetchOracle}
    {st st' : CrawlState} (hs : Step cfg oracle st st') :
    ∀ t ∈ st'.queue, t ∈ st.queue ∨ t.1 ∉ st'.visited := by
  cases hs with
  | burst hd =>
    intro t ht
    exact Or.inl (burstAux_queue_subset _ _ _ ht)
  | complete i hd hi =>
    intro t
    unfold completeTask
    split
    · exact fun ht => Or.inl ht
    · exact fun ht => Or.inl ht
    · rename_i url depth prog hA
      split
      · exact fun ht => Or.inl ht
      · rename_i hrefs hf
        intro ht
        rcases List.mem_append.1 ht with ht | ht
        · exact Or.inl ht
        · rcases List.mem_map.1 ht with ⟨u, hu, rfl⟩
          refine Or.inr ?_
          have hnv := (List.mem_filter.1 hu).2
          simpa using of_decide_eq_true hnv
  | finish hd hq ha =>
    intro t ht
    exact Or.inl ht

/-! ### Runs whose seed fetch fails -/

/-- Invariant of a run whose seed fetch fails: the queue and the in-flight tasks
only ever concern the seed itself, no product is found, and once the run is done
the last emitted update is `completed` with an empty product list. -/
structure SeedFailInv (cfg : CrawlConfig) (st : CrawlState) : Prop where
  qOnly : ∀ t ∈ st.queue, t = (cfg.domain, 0)
  aOnly : ∀ u d pr, Task.claimed u d pr ∈ st.active → u = cfg.domain
  pEmpty : st.products = []
  lastDone : st.done = true → st.updates.getLast? = some (completedUpdate [])

theorem seedFailInv_init (cfg : CrawlConfig) : SeedFailInv cfg (init cfg) := by
  refine ⟨?_, ?_, rfl, ?_⟩
  · intro t ht
    simpa [init] using ht
  · intro u d pr hm
    simp [init] at hm
  · intro hd
    simp [init] at hd

theorem seedFailInv_phaseA {cfg : CrawlConfig} {st : CrawlState} {url : String}
    {depth : Nat} {rest : List (String × Nat)} (h : SeedFailInv cfg st)
    (hq : st.queue = (url, depth) :: rest) (hdone : st.done = false) :
    SeedFailInv cfg (phaseA cfg st url depth rest) := by
  have hurl : url = cfg.domain := by
    have := h.qOnly (url, depth) (by rw [hq]; exact List.mem_cons_self _ _)
    exact congrArg Prod.fst this
  unfold phaseA
  split
  · refine ⟨?_, ?_, h.pEmpty, ?_⟩
    · intro t ht
      exact h.qOnly t (hq ▸ List.mem_cons_of_mem _ ht)
    · intro u d pr hm
      rcases List.mem_append.1 hm with hm | hm
      · exact h.aOnly u d pr hm
      · simp at hm
    · intro hd
      simp [hdone] at hd
  · refine ⟨?_, ?_, h.pEmpty, ?_⟩
    · intro t ht
      exact h.qOnly t (hq ▸ List.mem_cons_of_mem _ ht)
    · intro u d pr hm
      rcases List.mem_append.1 hm with hm | hm
      · exact h.aOnly u d pr hm
      · rw [List.mem_singleton] at hm
        cases hm
        exact hurl
    · intro hd
      simp [hdone] at hd

theorem phaseA_done (cfg : CrawlConfig) (st : CrawlState) (url : String) (depth : Nat)
    (rest : List (String × Nat)) : (phaseA cfg st url depth rest).done = st.done := by
  unfold phaseA
  split <;> rfl

theorem launchOne_done {cfg : CrawlConfig} {st st' : CrawlState}
    (hl : launchOne cfg st = some st') : st'.done = st.done := by
  unfold launchOne at hl
  split at hl
  · cases hl
  · split at hl
    · cases hl
      exact phaseA_done ..
    · cases hl

theorem burstAux_done (cfg : CrawlConfig) :
    ∀ (n : Nat) (st : CrawlState), (burstAux cfg n st).done = st.done
  | 0, _ => rfl
  | n + 1, st => by
    unfold burstAux
    split
    · rfl
    · rename_i st2 hl
      rw [burstAux_done cfg n st2, launchOne_done hl]

theorem seedFailInv_launchOne {cfg : CrawlConfig} {st st' : CrawlState}
    (h : SeedFailInv cfg st) (hdone : st.done = false)
    (hl : launchOne cfg st = some st') : SeedFailInv cfg st' := by
  unfold launchOne at hl
  split at hl
  · cases hl
  · rename_i url depth rest hq
    split at hl
    · cases hl
      exact seedFailInv_phaseA h hq hdone
    · cases hl

theorem seedFailInv_burstAux {cfg : CrawlConfig} :
    ∀ (n : Nat) (st : CrawlState), SeedFailInv cfg st → st.done = false →
      SeedFailInv cfg (burstAux cfg n st)
  | 0, _, h, _ => h
  | n + 1, st, h, hdone => by
    unfold burstAux
    split
    · exact h
    · rename_i st2 hl
      exact seedFailInv_burstAux n st2 (seedFailInv_launchOne h hdone hl)
        (by rw [launchOne_done hl]; exact hdone)

theorem seedFailInv_completeTask {cfg : CrawlConfig} {oracle : FetchOracle}
    {st : CrawlState} {i : Nat} (hf : fetchPage (oracle cfg.domain) = none)
    (h : SeedFailInv cfg st) (hdone : st.done = false) :
    SeedFailInv cfg (completeTask cfg oracle st i) := by
  unfold completeTask
  split
  · exact h
  · refine ⟨h.qOnly, ?_, h.pEmpty, ?_⟩
    · intro u d pr hm
      exact h.aOnly u d pr (List.eraseIdx_subset _ _ hm)
    · intro hd
      simp [hdone] at hd
  · rename_i url depth prog hA
    have hurl : url = cfg.domain := h.aOnly url depth prog (List.getElem?_mem hA)
    split
    · refine ⟨h.qOnly, ?_, h.pEmpty, ?_⟩
      · intro u d pr hm
        exact h.aOnly u d pr (List.eraseIdx_subset _ _ hm)
      · intro hd
        simp [hdone] at hd
    · rename_i hrefs heq
      rw [hurl, hf] at heq
      cases heq

theorem seedFailInv_step {cfg : CrawlConfig} {oracle : FetchOracle} {st st' : CrawlState}
    (hf : fetchPage (oracle cfg.domain) = none) (h : SeedFailInv cfg st)
    (hs : Step cfg oracle st st') : SeedFailInv cfg st' := by
  cases hs with
  | burst hd => exact seedFailInv_burstAux _ _ h hd
  | complete i hd hi => exact seedFailInv_completeTask hf h hd
  | finish hd hq ha =>
    refine ⟨h.qOnly, h.aOnly, ?_, ?_⟩
    · exact h.pEmpty
    · intro _
      show (st.updates ++ [completedUpdate st.products]).getLast? = some (completedUpdate [])
      rw [h.pEmpty, List.getLast?_concat]

theorem seedFailInv_reaches {cfg : CrawlConfig} {oracle : FetchOracle} {st : CrawlState}
    (hf : fetchPage (oracle cfg.domain) = none)
    (h : Reaches cfg oracle (init cfg) st) : SeedFailInv cfg st := by
  induction h with
  | refl => exact seedFailInv_init cfg
  | tail _ hbc ih => exact seedFailInv_step hf ih hbc

/-- `Math.min(size / maxPages * 100, 100)` (line 143) agrees with the spec's
formula `min(|visited| / maxPages, 1) * 100`. -/
theorem progressOf_spec (cfg : CrawlConfig) (k : Nat) :
    progressOf cfg k = min ((k : ℚ) / (cfg.maxPages : ℚ)) 1 * 100 := by
  unfold progressOf
  rw [min_mul_of_nonneg _ _ (by norm_num : (0 : ℚ) ≤ 100)]
  norm_num

/-! ### Concrete scenarios

Each scenario fixes a configuration, a network oracle (pages are their href
lists; `FetchResult.timeout` is a timed-out fetch), and one or more concrete
schedules. -/

/-- Scenario A (§8): seed `https://x.test/` linking to `/product/1` and
`/category/a`; `maxDepth = 1`, `maxPages = 10`, `concurrency = 2`. -/
def cfgA : CrawlConfig := ⟨"https://x.test/", 1, 10, 2⟩

def oracleA : FetchOracle := fun url =>
  if url = "https://x.test/" then FetchResult.response 200 ["/product/1", "/category/a"]
  else FetchResult.response 200 []

def schedA : List Choice :=
  [Choice.burst, Choice.complete 0, Choice.burst, Choice.complete 0,
   Choice.complete 0, Choice.finish]

/-- Scenario A postcondition: terminal `completed` update and final product list
`["https://x.test/product/1"]`. -/
def finalOkA (st : CrawlState) : Bool :=
  decide (st.updates.getLast? = some (completedUpdate ["https://x.test/product/1"])) &&
  decide (st.products = ["https://x.test/product/1"])

/-- Scenario C (§8): `maxPages = 1`, seed page linking to 5 further same-host
pages, all fetches succeeding. -/
def cfgC1 : CrawlConfig := ⟨"https://x.test/", 3, 1, 2⟩

def oracleC1 : FetchOracle := fun url =>
  if url = "https://x.test/" then
    FetchResult.response 200 ["/a1", "/a2", "/a3", "/a4", "/a5"]
  else FetchResult.response 200 []

def schedC1 : List Choice := [Choice.burst, Choice.complete 0]

/-- The state after the seed of scenario C is claimed and completes: queue full,
nothing in flight, page cap reached. -/
def stuckC1 : CrawlState :=
  (runChoices cfgC1 oracleC1 schedC1 (init cfgC1)).getD (init cfgC1)

/-- Scenario D (§8), first domain: every fetch times out. -/
def cfgT1 : CrawlConfig := ⟨"https://t1.test/", 1, 5, 2⟩

def oracleT1 : FetchOracle := fun _ => FetchResult.timeout

def schedT1 : List Choice := [Choice.burst, Choice.complete 0, Choice.finish]

/-- Scenario D, second domain of the same batch: fetches succeed and one
product page is found. -/
def cfgT2 : CrawlConfig := ⟨"https://t2.test/", 1, 5, 2⟩

def oracleT2 : FetchOracle := fun url =>
  if url = "https://t2.test/" then FetchResult.response 200 ["/product/5"]
  else FetchResult.response 200 []

def schedT2 : List Choice :=
  [Choice.burst, Choice.complete 0, Choice.burst, Choice.complete 0, Choice.finish]

/-- Progress interleaving scenario: seed links to two product pages, fetched
concurrently, the later-claimed one completing first. -/
def cfg3 : CrawlConfig := ⟨"https://x.test/", 2, 10, 2⟩

def oracle3 : FetchOracle := fun url =>
  if url = "https://x.test/" then FetchResult.response 200 ["/product/1", "/product/2"]
  else FetchResult.response 200 []

def sched3 : List Choice :=
  [Choice.burst, Choice.complete 0, Choice.burst, Choice.complete 1,
   Choice.complete 0, Choice.finish]

/-- The progress values carried by the successive `onUpdate` calls of a run. -/
def progressSeq (st : CrawlState) : List ℚ :=
  st.updates.filterMap UpdatePatch.progress

/-- Is a list of progress values non-decreasing? -/
def nondec : List ℚ → Bool
  | [] => true
  | [_] => true
  | a :: b :: t => decide (a ≤ b) && nondec (b :: t)

/-- Depth-cap scenario: `maxDepth = 0`, the seed links to one navigation page. -/
def cfg4 : CrawlConfig := ⟨"https://x.test/", 0, 10, 2⟩

def oracle4 : FetchOracle := fun url =>
  if url = "https://x.test/" then FetchResult.response 200 ["/category/a"]
  else FetchResult.response 200 []

def sched4 : List Choice := [Choice.burst, Choice.complete 0]

/-- Duplicate-enqueue scenario: two pages fetched concurrently both link to the
same yet-unvisited product page, and both complete before the next launch. -/
def cfg5 : CrawlConfig := ⟨"https://x.test/", 2, 10, 2⟩

def oracle5 : FetchOracle := fun url =>
  if url = "https://x.test/" then FetchResult.response 200 ["/category/a", "/category/b"]
  else if url = "https://x.test/category/a" then FetchResult.response 200 ["/product/9"]
  else if url = "https://x.test/category/b" then FetchResult.response 200 ["/product/9"]
  else FetchResult.response 200 []

def sched5 : List Choice :=
  [Choice.burst, Choice.complete 0, Choice.burst, Choice.complete 0, Choice.complete 0]

/-- A state with one claimed task in flight, used to instantiate the local
fetch-failure theorem. -/
def stW : CrawlState :=
  { visited := ["https://t1.test/"]
    products := []
    queue := []
    active := [Task.claimed "https://t1.test/" 0 20]
    updates := [crawlingUpdate]
    fetched := [("https://t1.test/", 0)]
    done := false }

/-! ### The claims -/

/-- C1 (code bug): in Scenario C — `maxPages = 1`, the seed fetch succeeding and
its body linking to 5 further same-host pages — the scheduler does NOT terminate
and `completed` is never emitted.  After the seed completes, the queue holds the
5 children, nothing is in flight, and `|visited| = maxPages`, so the loop of
lines 176–201 can neither launch (line 178 requires `visited.size < maxPages`)
nor exit (line 176 requires an empty queue): the reached state steps only to
itself, and no continuation of the run ever carries a `completed` status.  The
claim's "the scheduler loop terminates, emitting the completed status with
progress 100" is the evident intent that the code misses. -/
theorem C1_scenarioC_scheduler_hangs :
    runChoices cfgC1 oracleC1 schedC1 (init cfgC1) = some stuckC1 ∧
    stuckC1.done = false ∧
    stuckC1.queue ≠ [] ∧
    stuckC1.visited = ["https://x.test/"] ∧
    (∀ st', Step cfgC1 oracleC1 stuckC1 st' → st' = stuckC1) ∧
    (∀ st', Reaches cfgC1 oracleC1 stuckC1 st' →
      ∀ u ∈ st'.updates, u.status ≠ some Status.completed) := by
  have hfix : ∀ st', Step cfgC1 oracleC1 stuckC1 st' → st' = stuckC1 := by
    intro st' hs
    cases hs with
    | burst hd => decide
    | complete i hd hi =>
      exfalso
      have hlen : stuckC1.active.length = 0 := by decide
      omega
    | finish hd hq ha =>
      exfalso
      have hne : stuckC1.queue ≠ [] := by decide
      exact hne hq
  have hall : ∀ st', Reaches cfgC1 oracleC1 stuckC1 st' → st' = stuckC1 := by
    intro st' hr
    induction hr with
    | refl => rfl
    | tail hab hbc ih =>
      rw [ih] at hbc
      exact hfix _ hbc
  refine ⟨by decide, by decide, by decide, by decide, hfix, ?_⟩
  intro st' hr u hu
  rw [hall st' hr] at hu
  have hupd : ∀ v ∈ stuckC1.updates, v.status ≠ some Status.completed := by decide
  exact hupd u hu

theorem C1_scenarioC_scheduler_hangs_witness :
    burst cfgC1 stuckC1 = stuckC1 :=
  C1_scenarioC_scheduler_hangs.2.2.2.2.1 (burst cfgC1 stuckC1)
    (Step.burst stuckC1 (by decide))

/-- C2 counterexample: when the seed fetch times out, the domain's terminal
update is `completed` with `productUrls = []`, and no `error` status is ever
emitted — refuting the claim that the terminal status is `error`.  `fetchPage`
catches the abort and returns `null` (lines 130–132), `crawlUrl` returns `[]`
(line 147), the loop drains, and lines 203–207 emit `completed`. -/
theorem C2_seed_timeout_completed_cex :
    (runChoices cfgT1 oracleT1 schedT1 (init cfgT1)).map
        (fun st => decide (st.updates.getLast? = some (completedUpdate [])) &&
          st.updates.all (fun u => decide (u.status ≠ some Status.error)) && st.done)
      = some true := by
  decide

/-- C2 amended: for every run whose seed fetch fails (timeout included), every
terminating schedule ends with products empty and the terminal update
`completed` with `productUrls = []` — not `error`; and another domain of the
same batch (an independent crawler instance) still completes normally with its
own products. -/
theorem C2_seed_timeout_domain_completes :
    (∀ (cfg : CrawlConfig) (oracle : FetchOracle),
      fetchPage (oracle cfg.domain) = none →
      ∀ st, Reaches cfg oracle (init cfg) st → st.done = true →
        st.products = [] ∧ st.updates.getLast? = some (completedUpdate [])) ∧
    (runChoices cfgT2 oracleT2 schedT2 (init cfgT2)).map
        (fun st => decide (st.updates.getLast? =
          some (completedUpdate ["https://t2.test/product/5"])) && st.done)
      = some true := by
  constructor
  · intro cfg oracle hf st hr hd
    have h := seedFailInv_reaches hf hr
    exact ⟨h.pEmpty, h.lastDone hd⟩
  · decide

theorem C2_seed_timeout_domain_completes_witness :
    ((runChoices cfgT1 oracleT1 schedT1 (init cfgT1)).getD (init cfgT1)).products = [] ∧
    ((runChoices cfgT1 oracleT1 schedT1 (init cfgT1)).getD (init cfgT1)).updates.getLast?
      = some (completedUpdate []) :=
  C2_seed_timeout_domain_completes.1 cfgT1 oracleT1 rfl _
    (runChoices_sound (show runChoices cfgT1 oracleT1 schedT1 (init cfgT1)
      = some ((runChoices cfgT1 oracleT1 schedT1 (init cfgT1)).getD (init cfgT1)) by decide))
    (by decide)

/-- C3 counterexample: the progress values carried by successive `onUpdate`
calls are NOT non-decreasing.  With concurrency 2 and `maxPages = 10`, the two
product pages are claimed at progress 20 and 30; the later-claimed one completes
first, so its product update carries 30 and the earlier-claimed one's product
update then carries its stale claim-time progress 20 (line 154 reuses the
`progress` captured at line 143): the emitted sequence is
`[0, 10, 20, 30, 30, 20, 100]`, which decreases. -/
theorem C3_progress_decreases_cex :
    (runChoices cfg3 oracle3 sched3 (init cfg3)).map progressSeq
      = some [0, 10, 20, 30, 30, 20, 100] ∧
    nondec [0, 10, 20, 30, 30, 20, 100] = false := by
  constructor <;> decide

/-- C3 amended: the progress of each claim-time update is derived as
`min(|visited| / maxPages, 1) * 100` at the moment of admission, and the
sequence of progress values over the updates that do NOT carry `productUrls`
(the `crawling` start and the claim-time updates) is non-decreasing; but a
product-discovery update reuses the progress captured when its page was
claimed, so the full `onUpdate` progress sequence can decrease under
concurrency (see the counterexample). -/
theorem C3_claim_progress_formula_monotone :
    ∀ (cfg : CrawlConfig) (oracle : FetchOracle) (st : CrawlState),
      Reaches cfg oracle (init cfg) st →
      ((st.updates.filter (fun u => u.productUrls.isNone)).filterMap UpdatePatch.progress
          = 0 :: (List.range st.visited.length).map
              (fun i => min (((i + 1 : Nat) : ℚ) / (cfg.maxPages : ℚ)) 1 * 100)) ∧
      ((st.updates.filter (fun u => u.productUrls.isNone)).filterMap
          UpdatePatch.progress).Pairwise (· ≤ ·) := by
  intro cfg oracle st hr
  have h := (inv_reaches hr).updChar
  have hform : (List.range st.visited.length).map (fun i => progressOf cfg (i + 1))
      = (List.range st.visited.length).map
          (fun i => min (((i + 1 : Nat) : ℚ) / (cfg.maxPages : ℚ)) 1 * 100) :=
    List.map_congr_left (fun i _ => progressOf_spec cfg (i + 1))
  refine ⟨?_, ?_⟩
  · rw [h, hform]
  · rw [h]
    exact pairwise_progress cfg _

theorem C3_claim_progress_formula_monotone_witness :
    (((init cfgA).updates.filter (fun u => u.productUrls.isNone)).filterMap
        UpdatePatch.progress
      = 0 :: (List.range (init cfgA).visited.length).map
          (fun i => min (((i + 1 : Nat) : ℚ) / (cfgA.maxPages : ℚ)) 1 * 100)) ∧
    (((init cfgA).updates.filter (fun u => u.productUrls.isNone)).filterMap
        UpdatePatch.progress).Pairwise (· ≤ ·) :=
  C3_claim_progress_formula_monotone cfgA oracleA (init cfgA) Relation.ReflTransGen.refl

/-- C4 counterexample: a `CrawlTarget` whose depth exceeds `maxDepth` IS
enqueued.  With `maxDepth = 0`, after the seed (depth 0) completes, the queue
holds `("https://x.test/category/a", 1)` — the expansion filter (lines 160–164)
and the `.then` enqueue (lines 184–188) check visitedness and URL shape but
never depth, refuting "dropped at expansion time … never enqueued". -/
theorem C4_overdepth_enqueued_cex :
    (runChoices cfg4 oracle4 sched4 (init cfg4)).map CrawlState.queue
      = some [("https://x.test/category/a", 1)] ∧
    cfg4.maxDepth < 1 := by
  constructor <;> decide

/-- C4 amended: expansion enqueues children at `depth + 1` with no depth check,
so queued targets may exceed `maxDepth` — but by at most one, and an over-depth
target popped from the queue is discarded by the admission guard of line 136 at
claim time: every (url, depth) pair actually passed to `fetchPage` has
`depth ≤ maxDepth`. -/
theorem C4_depth_discipline :
    ∀ (cfg : CrawlConfig) (oracle : FetchOracle) (st : CrawlState),
      Reaches cfg oracle (init cfg) st →
      (∀ t ∈ st.queue, t.2 ≤ cfg.maxDepth + 1) ∧
      (∀ p ∈ st.fetched, p.2 ≤ cfg.maxDepth) :=
  fun _ _ _ hr => ⟨(inv_reaches hr).qDepth, (inv_reaches hr).fDepth⟩

theorem C4_depth_discipline_witness :
    (("https://x.test/category/a", 1) : String × Nat).2 ≤ cfg4.maxDepth + 1 ∧
    (("https://x.test/", 0) : String × Nat).2 ≤ cfg4.maxDepth := by
  have h := C4_depth_discipline cfg4 oracle4
    ((runChoices cfg4 oracle4 sched4 (init cfg4)).getD (init cfg4))
    (runChoices_sound (show runChoices cfg4 oracle4 sched4 (init cfg4)
      = some ((runChoices cfg4 oracle4 sched4 (init cfg4)).getD (init cfg4)) by decide))
  exact ⟨h.1 _ (by decide), h.2 _ (by decide)⟩

/-- C5 counterexample: the same URL can sit in the queue twice while absent from
`visited`.  Two pages fetched concurrently both link to the yet-unvisited
`/product/9`; each completing `.then` checks only `!visited.has(url)` — not
queue membership — so both push it, yielding a queue with two copies of an
unvisited URL. -/
theorem C5_duplicate_unvisited_cex :
    (runChoices cfg5 oracle5 sched5 (init cfg5)).map
        (fun st => (st.queue, decide ("https://x.test/product/9" ∈ st.visited)))
      = some ([("https://x.test/product/9", 2), ("https://x.test/product/9", 2)], false) := by
  decide

/-- C5 amended: a URL already in `visited` is never (re-)enqueued — every target
a step adds to the queue is unvisited at enqueue time (the second half of the
claim holds).  The first half fails: nothing deduplicates the queue itself, so
the same unvisited URL can be enqueued twice by concurrently completing parents
(see the counterexample); each duplicate is later discarded by the admission
guard. -/
theorem C5_no_requeue_of_visited :
    ∀ (cfg : CrawlConfig) (oracle : FetchOracle) (st st' : CrawlState),
      Step cfg oracle st st' →
      ∀ t ∈ st'.queue, t ∈ st.queue ∨ t.1 ∉ st'.visited :=
  fun _ _ _ _ hs => step_new_queue_unvisited hs

theorem C5_no_requeue_of_visited_witness :
    ("https://x.test/category/a", 1) ∈ (burst cfg5 (init cfg5)).queue ∨
    ("https://x.test/category/a", 1).1 ∉
      (completeTask cfg5 oracle5 (burst cfg5 (init cfg5)) 0).visited :=
  C5_no_requeue_of_visited cfg5 oracle5 _ _
    (Step.complete (burst cfg5 (init cfg5)) 0 (by decide) (by decide))
    ("https://x.test/category/a", 1) (by decide)

/-- C6: a non-success HTTP status, a timeout and a transport error all collapse
to the same `null` outcome of `fetchPage` (lines 113–133), with no retry; and
completing a task whose fetch failed changes nothing but the in-flight set —
same `visited`, `products`, `queue` and update trace (so no expansion links, no
product record, no status change, other queued or in-flight work untouched). -/
theorem C6_fetch_failure_collapses_local :
    (fetchPage FetchResult.timeout = none ∧
     fetchPage FetchResult.transportError = none ∧
     ∀ (status : Nat) (hrefs : List String), ¬(200 ≤ status ∧ status ≤ 299) →
       fetchPage (FetchResult.response status hrefs) = none) ∧
    (∀ (cfg : CrawlConfig) (oracle : FetchOracle) (st : CrawlState) (i : Nat)
       (url : String) (depth : Nat) (prog : ℚ),
       st.active[i]? = some (Task.claimed url depth prog) →
       fetchPage (oracle url) = none →
       completeTask cfg oracle st i = { st with active := st.active.eraseIdx i }) := by
  refine ⟨⟨rfl, rfl, ?_⟩, ?_⟩
  · intro status hrefs h
    show (if 200 ≤ status ∧ status ≤ 299 then some hrefs else (none : Option (List String)))
      = none
    rw [if_neg h]
  · intro cfg oracle st i url depth prog hA hf
    simp only [completeTask, hA, hf]

theorem C6_fetch_failure_collapses_local_witness :
    fetchPage (FetchResult.response 404 ["/x"]) = none ∧
    completeTask cfgT1 oracleT1 stW 0 = { stW with active := stW.active.eraseIdx 0 } :=
  ⟨C6_fetch_failure_collapses_local.1.2.2 404 ["/x"] (by decide),
   C6_fetch_failure_collapses_local.2 cfgT1 oracleT1 stW 0 "https://t1.test/" 0 20 rfl rfl⟩

/-- C7: in every reachable state of every run, `|visited| ≤ maxPages`; moreover
the fetch log projects exactly onto `visited` (every visited URL was admitted by
one claim) and every admission happened at dispatch depth `≤ maxDepth`. -/
theorem C7_visited_caps :
    ∀ (cfg : CrawlConfig) (oracle : FetchOracle) (st : CrawlState),
      Reaches cfg oracle (init cfg) st →
      st.visited.length ≤ cfg.maxPages ∧
      st.fetched.map Prod.fst = st.visited ∧
      (∀ p ∈ st.fetched, p.2 ≤ cfg.maxDepth) :=
  fun _ _ _ hr =>
    ⟨(inv_reaches hr).vLen, (inv_reaches hr).fVisited, (inv_reaches hr).fDepth⟩

theorem C7_visited_caps_witness :
    (burst cfgA (init cfgA)).visited.length ≤ cfgA.maxPages ∧
    (burst cfgA (init cfgA)).fetched.map Prod.fst = (burst cfgA (init cfgA)).visited ∧
    (("https://x.test/", 0) : String × Nat).2 ≤ cfgA.maxDepth := by
  have h := C7_visited_caps cfgA oracleA (burst cfgA (init cfgA))
    (Relation.ReflTransGen.single (Step.burst (init cfgA) rfl))
  exact ⟨h.1, h.2.1, h.2.2 _ (by decide)⟩

/-- C8: no URL is fetched more than once within a domain run.  The admission
check and the insertion into `visited` are one synchronous block (lines
136–140, before the `await` of line 146), modelled as part of a single launch
step; consequently the log of URLs passed to `fetchPage` has no duplicates in
any reachable state, duplicate queue entries and concurrency notwithstanding. -/
theorem C8_at_most_one_fetch_per_url :
    ∀ (cfg : CrawlConfig) (oracle : FetchOracle) (st : CrawlState),
      Reaches cfg oracle (init cfg) st →
      (st.fetched.map Prod.fst).Nodup := by
  intro cfg oracle st hr
  rw [(inv_reaches hr).fVisited]
  exact (inv_reaches hr).vNodup

theorem C8_at_most_one_fetch_per_url_witness :
    ((burst cfgA (init cfgA)).fetched.map Prod.fst).Nodup :=
  C8_at_most_one_fetch_per_url cfgA oracleA (burst cfgA (init cfgA))
    (Relation.ReflTransGen.single (Step.burst (init cfgA) rfl))

/-- C9: Scenario A — seed `https://x.test/` whose body links to `/product/1`
and `/category/a`, `maxDepth = 1`, `maxPages = 10`, `concurrency = 2`, all
fetches succeeding.  Under EVERY schedule, a run that terminates ends with
final `productUrls = ["https://x.test/product/1"]` and terminal status
`completed`; and the natural schedule does terminate with that outcome. -/
theorem C9_scenarioA_products :
    (∀ st : CrawlState, Reaches cfgA oracleA (init cfgA) st → st.done = true →
      finalOkA st = true) ∧
    (runChoices cfgA oracleA schedA (init cfgA)).map finalOkA = some true ∧
    (runChoices cfgA oracleA schedA (init cfgA)).map CrawlState.done = some true := by
  refine ⟨?_, by decide, by decide⟩
  intro st hr hd
  exact checkAll_sound hr hd
    (show checkAll cfgA oracleA finalOkA 8 (init cfgA) = true by decide)

theorem C9_scenarioA_products_witness :
    finalOkA ((runChoices cfgA oracleA schedA (init cfgA)).getD (init cfgA)) = true :=
  C9_scenarioA_products.1 _
    (runChoices_sound (show runChoices cfgA oracleA schedA (init cfgA)
      = some ((runChoices cfgA oracleA schedA (init cfgA)).getD (init cfgA)) by decide))
    (by decide)

/-- C10: the stream wrapper of `POST` (lines 227–236) spreads each partial
update over the fixed defaults `{domain, productUrls: [], status: "pending",
progress: 0}` — so every relayed line carries all four fields, a missing field
is filled with its fixed default (not the domain's current value), and in
particular a product-discovery update (which supplies only `productUrls` and
`progress`, line 152) is serialized with status `"pending"`. -/
theorem C10_stream_defaults :
    ∀ (d : String) (u : UpdatePatch),
      (mkFullUpdate d u =
        { domain := d
          productUrls := u.productUrls.getD []
          status := u.status.getD Status.pending
          progress := u.progress.getD 0
          errMsg := u.errMsg }) ∧
      ∀ (ps : List String) (p : ℚ),
        (productFoundUpdate ps p).status = none ∧
        mkFullUpdate d (productFoundUpdate ps p) =
          { domain := d
            productUrls := ps
            status := Status.pending
            progress := p
            errMsg := none } :=
  fun _ _ => ⟨rfl, fun _ _ => ⟨rfl, rfl⟩⟩

end Crawl
